import Mathlib

/-!
Verification of the reinvestment simulator and target-quantity solver of
`src/ofz_core.py` (with the duplicate copy in `src/ofz_target.py`).

Modelling choices for the shallow embedding:
* Money values are exact rationals (the Python source computes with floats;
  every claim checked here is about the arithmetic the source performs,
  which is mirrored term by term on `ℚ`).
* Calendar dates are integer day numbers: the source only compares dates and
  takes day differences, so an arbitrary epoch offset is irrelevant.
* Python `round(x, 2)` is modelled as rounding `100 * x` to the nearest
  integer (`round2` below).  Python `int(x)` truncates toward zero (`pyInt`).
* Python float floor division `total // price` followed by `int(...)` is
  `⌊total / price⌋`.  (For `price = 0` Python raises `ZeroDivisionError`
  while the rational model returns `⌊0⌋ = 0`.  The theorem about the absence
  of input validation therefore assumes `reinvest_price ≠ 0` in its
  simulator conclusions, and the concrete counterexamples only use inputs on
  which the division is never executed.)
* The simulator functions are total, exactly like the source, which performs
  no input validation.  The solver's single `raise ValueError(...)` is
  modelled with `Except String`.
-/

/-- Python `round(x, 2)`: scale by 100, round to nearest integer, scale back.
(Python rounds half-to-even on binary floats; no claim touches a half-cent
tie, so nearest-integer rounding on `ℚ` is a faithful model.) -/
def round2 (x : ℚ) : ℚ := ((round (x * 100) : ℤ) : ℚ) / 100

/-- Python `int(x)` on a float: truncation toward zero. -/
def pyInt (x : ℚ) : ℤ := Int.tdiv x.num (x.den : ℤ)

/-- The bond record produced by `fetch_bond` — the fields the simulator and
solver consume.  `coupons` is the list of `(pay_date, value_per_unit)` pairs,
sorted ascending by the caller. -/
structure Bond where
  face_value : ℚ
  maturity_date : ℤ
  purchase_price_with_nkd : ℚ
  coupons : List (ℤ × ℚ)

/-- The running state of the reinvestment loop: held quantity (a float in the
source, always integer-valued), uninvested cash, and the terminal coupon
cash (`final_coupon_cash` in the source, `0` until the terminal event). -/
structure SimState where
  qty : ℚ
  cash : ℚ
  final_coupon_cash : ℚ

/-- Result of `simulate_reinvest_simple`. -/
structure SimpleResult where
  final_amount : ℚ
  final_qty : ℤ

/-- Result of `simulate_reinvest_detailed` (the log lines, which are
presentation-only strings, are not modelled). -/
structure DetailedResult where
  final_quantity : ℤ
  final_amount : ℚ
  initial_investment : ℚ
  profit : ℚ
  annualized_return : ℚ

/-- The coupon loop of `simulate_reinvest_simple` (src/ofz_core.py lines
235-246): one iteration per future coupon, stopping at the first event with
`pay_date >= maturity_date` (the terminal event, which records
`final_coupon_cash` and zeroes the cash instead of reinvesting). -/
def simpleLoop (maturity_date : ℤ) (reinvest_price : ℚ) (allow_carry_over : Bool) :
    List (ℤ × ℚ) → SimState → SimState
  | [], s => s
  | (pay_date, coupon_value) :: rest, s =>
    let total_coupon := coupon_value * s.qty + (if allow_carry_over then s.cash else 0)
    if maturity_date ≤ pay_date then
      { s with final_coupon_cash := total_coupon, cash := 0 }
    else
      let reinvest_qty : ℤ := ⌊total_coupon / reinvest_price⌋
      simpleLoop maturity_date reinvest_price allow_carry_over rest
        { qty := s.qty + (reinvest_qty : ℚ)
          cash := if allow_carry_over then
              round2 (total_coupon - (reinvest_qty : ℚ) * reinvest_price) else 0
          final_coupon_cash := s.final_coupon_cash }

/-- Model of `simulate_reinvest_simple` (src/ofz_core.py lines 223-250). -/
def simulate_reinvest_simple (bond : Bond) (purchase_date : ℤ) (initial_qty : ℤ)
    (reinvest_price : ℚ) (allow_carry_over : Bool) : SimpleResult :=
  let s := simpleLoop bond.maturity_date reinvest_price allow_carry_over
    (bond.coupons.filter (fun c => purchase_date ≤ c.1))
    { qty := (initial_qty : ℚ), cash := 0, final_coupon_cash := 0 }
  let redemption := s.qty * bond.face_value
  { final_amount := redemption + s.final_coupon_cash + s.cash, final_qty := pyInt s.qty }

/-- The coupon loop of `simulate_reinvest_detailed` (src/ofz_core.py lines
162-200); identical arithmetic to `simpleLoop`, written with the source's
intermediate names (`coupon_income`, `carry_over`, `reinvest_cost`).  The
`idx`/`prev_qty` bookkeeping of the source feeds only the log and is not
modelled. -/
def detailedLoop (maturity_date : ℤ) (reinvest_price : ℚ) (allow_carry_over : Bool) :
    List (ℤ × ℚ) → SimState → SimState
  | [], s => s
  | (pay_date, coupon_value) :: rest, s =>
    let coupon_income := coupon_value * s.qty
    let carry_over := if allow_carry_over then s.cash else 0
    let total_coupon := coupon_income + carry_over
    if maturity_date ≤ pay_date then
      { s with final_coupon_cash := total_coupon, cash := 0 }
    else
      let reinvest_qty : ℤ := ⌊total_coupon / reinvest_price⌋
      let reinvest_cost := (reinvest_qty : ℚ) * reinvest_price
      detailedLoop maturity_date reinvest_price allow_carry_over rest
        { qty := s.qty + (reinvest_qty : ℚ)
          cash := if allow_carry_over then round2 (total_coupon - reinvest_cost) else 0
          final_coupon_cash := s.final_coupon_cash }

/-- Model of `simulate_reinvest_detailed` (src/ofz_core.py lines 125-220). -/
def simulate_reinvest_detailed (bond : Bond) (purchase_date : ℤ) (initial_qty : ℤ)
    (reinvest_price : ℚ) (allow_carry_over : Bool) : DetailedResult :=
  let initial_investment := (initial_qty : ℚ) * bond.purchase_price_with_nkd
  let s := detailedLoop bond.maturity_date reinvest_price allow_carry_over
    (bond.coupons.filter (fun c => purchase_date ≤ c.1))
    { qty := (initial_qty : ℚ), cash := 0, final_coupon_cash := 0 }
  let redemption := s.qty * bond.face_value
  let final_amount := redemption + s.final_coupon_cash + s.cash
  let profit := final_amount - initial_investment
  let years : ℚ := ((bond.maturity_date - purchase_date : ℤ) : ℚ) / (1461 / 4)
  let annualized := if 0 < years then profit / initial_investment / years * 100 else 0
  { final_quantity := pyInt s.qty
    final_amount := final_amount
    initial_investment := initial_investment
    profit := profit
    annualized_return := annualized }

/-- The list of states after each executed iteration of `simpleLoop`, in
order (the terminal event contributes the last state and stops the loop).
This is the loop's trace, used to state per-step invariants. -/
def simpleStates (maturity_date : ℤ) (reinvest_price : ℚ) (allow_carry_over : Bool) :
    List (ℤ × ℚ) → SimState → List SimState
  | [], _ => []
  | (pay_date, coupon_value) :: rest, s =>
    let total_coupon := coupon_value * s.qty + (if allow_carry_over then s.cash else 0)
    if maturity_date ≤ pay_date then
      [{ s with final_coupon_cash := total_coupon, cash := 0 }]
    else
      let reinvest_qty : ℤ := ⌊total_coupon / reinvest_price⌋
      let s' : SimState :=
        { qty := s.qty + (reinvest_qty : ℚ)
          cash := if allow_carry_over then
              round2 (total_coupon - (reinvest_qty : ℚ) * reinvest_price) else 0
          final_coupon_cash := s.final_coupon_cash }
      s' :: simpleStates maturity_date reinvest_price allow_carry_over rest s'

/-- Reference definition following the spec's words for carry-over
suppression (§8): with carry-over disabled the quantity evolves by
`qty += floor(coupon_value * qty / reinvest_price)` with no cash, and
`final_coupon_cash` is exactly the terminal event's `coupon_income`
(coupon value times the quantity held at that step), `0` if the loop
exhausts the schedule without a terminal event. -/
def noCarryFinalCoupon (maturity_date : ℤ) (reinvest_price : ℚ) :
    List (ℤ × ℚ) → ℚ → ℚ
  | [], _ => 0
  | (pay_date, coupon_value) :: rest, qty =>
    if maturity_date ≤ pay_date then coupon_value * qty
    else noCarryFinalCoupon maturity_date reinvest_price rest
      (qty + ((⌊coupon_value * qty / reinvest_price⌋ : ℤ) : ℚ))

/-- The solver's error message (src/ofz_core.py line 278). -/
def searchBoundMessage : String :=
  "Слишком большая целевая сумма, подберите меньшую или снизьте дату."

/-- The exponential bracketing loop of `find_min_qty_for_target`
(src/ofz_core.py lines 266-278).  The `while True` loop terminates because
`upper_qty` starts at 2 and doubles until the `10_000_000` guard fires; the
positivity argument `hu` records that invariant for the termination proof.
Returns `(lower_qty, lower_val, upper_qty, upper_final_amount)`. -/
def exponentialBracket (bond : Bond) (purchase_date : ℤ) (target_amount : ℚ)
    (allow_carry_over : Bool) (lower_qty : ℤ) (lower_val : ℚ) (upper_qty : ℤ)
    (hu : 0 < upper_qty) : Except String (ℤ × ℚ × ℤ × ℚ) :=
  let upper_res := simulate_reinvest_simple bond purchase_date upper_qty
    bond.face_value allow_carry_over
  if target_amount ≤ upper_res.final_amount then
    .ok (lower_qty, lower_val, upper_qty, upper_res.final_amount)
  else if h2 : 10000000 < upper_qty * 2 then
    .error searchBoundMessage
  else
    exponentialBracket bond purchase_date target_amount allow_carry_over
      upper_qty upper_res.final_amount (upper_qty * 2) (by omega)
termination_by (10000001 - upper_qty).toNat
decreasing_by omega

/-- The binary-search loop of `find_min_qty_for_target` (src/ofz_core.py
lines 280-293): the Python midpoint `(left + right) // 2` is floor division, hence
`Int.fdiv`.  The best candidate is replaced when the midpoint meets the
target and has a smaller amount or a smaller quantity (the tie-break). -/
def binsearch (bond : Bond) (purchase_date : ℤ) (target_amount : ℚ)
    (allow_carry_over : Bool) (best_qty : ℤ) (best_val : ℚ) (left right : ℤ) :
    ℤ × ℚ :=
  if hlr : left ≤ right then
    let mid := Int.fdiv (left + right) 2
    let mid_res := simulate_reinvest_simple bond purchase_date mid
      bond.face_value allow_carry_over
    if target_amount ≤ mid_res.final_amount then
      if mid_res.final_amount < best_val ∨ mid < best_qty then
        binsearch bond purchase_date target_amount allow_carry_over
          mid mid_res.final_amount left (mid - 1)
      else
        binsearch bond purchase_date target_amount allow_carry_over
          best_qty best_val left (mid - 1)
    else
      binsearch bond purchase_date target_amount allow_carry_over
        best_qty best_val (mid + 1) right
  else (best_qty, best_val)
termination_by (right + 1 - left).toNat
decreasing_by
  all_goals
    rw [Int.fdiv_eq_ediv _ (by norm_num)]
    omega

/-- Positivity of the starting probe quantity 2, recorded as a named
constant so that proofs can refer to the bracketing call of
`find_min_qty_for_target` syntactically. -/
def zeroLtTwo : (0 : ℤ) < 2 := by norm_num

/-- Model of `find_min_qty_for_target` (src/ofz_core.py lines 253-295): quantity 1
first, then exponential bracketing, then binary search over
`(lower_qty, upper_qty]` with the initial best candidate at `upper_qty`. -/
def find_min_qty_for_target (bond : Bond) (purchase_date : ℤ) (target_amount : ℚ)
    (allow_carry_over : Bool) : Except String (ℤ × ℚ) :=
  let result := simulate_reinvest_simple bond purchase_date 1
    bond.face_value allow_carry_over
  if target_amount ≤ result.final_amount then .ok (1, result.final_amount)
  else
    match exponentialBracket bond purchase_date target_amount allow_carry_over
      1 result.final_amount 2 zeroLtTwo with
    | .error e => .error e
    | .ok (lower_qty, _lower_val, upper_qty, upper_val) =>
      .ok (binsearch bond purchase_date target_amount allow_carry_over
        upper_qty upper_val (lower_qty + 1) upper_qty)

/-- Shorthand: quantity `q` meets the target under the solver's oracle
(`simulate_reinvest_simple` at `reinvest_price = face_value`). -/
def meetsTarget (bond : Bond) (purchase_date : ℤ) (target_amount : ℚ)
    (allow_carry_over : Bool) (q : ℤ) : Prop :=
  target_amount ≤
    (simulate_reinvest_simple bond purchase_date q bond.face_value
      allow_carry_over).final_amount

/-- Shorthand: the oracle's final amount at quantity `q`. -/
def probeValue (bond : Bond) (purchase_date : ℤ) (allow_carry_over : Bool)
    (q : ℤ) : ℚ :=
  (simulate_reinvest_simple bond purchase_date q bond.face_value
    allow_carry_over).final_amount

/-- Concrete bond for witnesses: face value 1, no coupons, maturity day 1,
so the oracle's final amount at quantity `q` is exactly `q`. -/
def unitBond : Bond :=
  { face_value := 1
    maturity_date := 1
    purchase_price_with_nkd := 1
    coupons := [] }

/-- Concrete bond of the spec's worked scenario (§8), with symbolic coupon
dates: face value 1000, price-with-accrued 980, coupons `(d1, 35)` and
`(d2, 1035)` where `d2` is the maturity date. -/
def workedBond (d1 d2 : ℤ) : Bond :=
  { face_value := 1000
    maturity_date := d2
    purchase_price_with_nkd := 980
    coupons := [(d1, 35), (d2, 1035)] }

/-- Concrete bond for witnesses whose single coupon precedes purchase day
10. -/
def pastCouponBond : Bond :=
  { face_value := 500
    maturity_date := 100
    purchase_price_with_nkd := 490
    coupons := [(3, 20)] }

/-- Concrete bond with `purchase_price_with_nkd = 0` (the data model only
requires non-negativity), maturing 365 days after day 0. -/
def priceZeroBond : Bond :=
  { face_value := 1000
    maturity_date := 365
    purchase_price_with_nkd := 0
    coupons := [] }

-- ======================================================================
-- Helper lemmas
-- ======================================================================

theorem round2_nonneg {x : ℚ} (hx : 0 ≤ x) : 0 ≤ round2 x := by
  unfold round2
  have h : (0 : ℤ) ≤ round (x * 100) := by
    rw [round_eq]
    have : (0 : ℚ) ≤ x * 100 + 1 / 2 := by positivity
    exact Int.floor_nonneg.mpr this
  positivity

theorem round2_zero : round2 0 = 0 := by
  unfold round2
  norm_num

theorem pyInt_intCast (z : ℤ) : pyInt ((z : ℤ) : ℚ) = z := by
  unfold pyInt
  simp

/-- Remainder after buying whole lots is non-negative. -/
theorem lot_remainder_nonneg (total : ℚ) {price : ℚ} (hp : 0 < price) :
    0 ≤ total - ((⌊total / price⌋ : ℤ) : ℚ) * price := by
  have h := Int.floor_le (total / price)
  rw [sub_nonneg]
  calc ((⌊total / price⌋ : ℤ) : ℚ) * price
      ≤ total / price * price := by
        exact mul_le_mul_of_nonneg_right h hp.le
    _ = total := by field_simp

theorem lot_count_nonneg {total price : ℚ} (ht : 0 ≤ total) (hp : 0 < price) :
    (0 : ℤ) ≤ ⌊total / price⌋ :=
  Int.floor_nonneg.mpr (div_nonneg ht hp.le)

/-- The two coupon loops compute the same state. -/
theorem detailedLoop_eq_simpleLoop (m : ℤ) (p : ℚ) (c : Bool) :
    ∀ (cs : List (ℤ × ℚ)) (s : SimState),
      detailedLoop m p c cs s = simpleLoop m p c cs s := by
  intro cs
  induction cs with
  | nil => intro s; rfl
  | cons hd tl ih =>
    intro s
    obtain ⟨pay, v⟩ := hd
    simp only [detailedLoop, simpleLoop]
    by_cases hpm : m ≤ pay
    · rw [if_pos hpm, if_pos hpm]
    · rw [if_neg hpm, if_neg hpm, ih]

-- ======================================================================
-- C3: simple/detailed equivalence
-- ======================================================================

/-- C3: for every bond, purchase date, initial quantity, reinvestment price
and carry-over flag, `simulate_reinvest_detailed` and
`simulate_reinvest_simple` produce identical `final_amount` and identical
final quantity. -/
theorem simple_detailed_equivalence (bond : Bond) (purchase_date initial_qty : ℤ)
    (reinvest_price : ℚ) (allow_carry_over : Bool) :
    (simulate_reinvest_detailed bond purchase_date initial_qty reinvest_price
        allow_carry_over).final_amount =
      (simulate_reinvest_simple bond purchase_date initial_qty reinvest_price
        allow_carry_over).final_amount ∧
    (simulate_reinvest_detailed bond purchase_date initial_qty reinvest_price
        allow_carry_over).final_quantity =
      (simulate_reinvest_simple bond purchase_date initial_qty reinvest_price
        allow_carry_over).final_qty := by
  unfold simulate_reinvest_detailed simulate_reinvest_simple
  rw [detailedLoop_eq_simpleLoop]
  exact ⟨rfl, rfl⟩

-- ======================================================================
-- C7: no-coupon degeneracy
-- ======================================================================

/-- C7: when no coupon has `pay_date >= purchase_date`, both variants return
`final_amount = initial_qty * face_value` exactly, with
`profit = final_amount - initial_qty * purchase_price_with_nkd`, and the
final quantity is the unmodified `initial_qty`. -/
theorem no_coupon_degeneracy (bond : Bond) (purchase_date initial_qty : ℤ)
    (reinvest_price : ℚ) (allow_carry_over : Bool)
    (h : ∀ c ∈ bond.coupons, c.1 < purchase_date) :
    (simulate_reinvest_detailed bond purchase_date initial_qty reinvest_price
        allow_carry_over).final_amount = (initial_qty : ℚ) * bond.face_value ∧
    (simulate_reinvest_detailed bond purchase_date initial_qty reinvest_price
        allow_carry_over).profit =
      (initial_qty : ℚ) * bond.face_value -
        (initial_qty : ℚ) * bond.purchase_price_with_nkd ∧
    (simulate_reinvest_detailed bond purchase_date initial_qty reinvest_price
        allow_carry_over).final_quantity = initial_qty ∧
    (simulate_reinvest_simple bond purchase_date initial_qty reinvest_price
        allow_carry_over).final_amount = (initial_qty : ℚ) * bond.face_value ∧
    (simulate_reinvest_simple bond purchase_date initial_qty reinvest_price
        allow_carry_over).final_qty = initial_qty := by
  have hfil : bond.coupons.filter (fun c => purchase_date ≤ c.1) = [] := by
    rw [List.filter_eq_nil_iff]
    intro c hc
    simpa using not_le.mpr (h c hc)
  unfold simulate_reinvest_detailed simulate_reinvest_simple
  rw [hfil]
  simp only [detailedLoop, simpleLoop]
  refine ⟨by ring, by ring, pyInt_intCast initial_qty, by ring,
    pyInt_intCast initial_qty⟩

/-- Witness for C7 at a concrete input: a bond whose only coupon precedes
the purchase date. -/
theorem no_coupon_degeneracy_witness :
    (simulate_reinvest_detailed pastCouponBond 10 4 500 true).final_amount =
      (4 : ℚ) * pastCouponBond.face_value := by
  have h := no_coupon_degeneracy pastCouponBond 10 4 500 true
    (by intro c hc; simp [pastCouponBond] at hc; rw [hc]; norm_num)
  exact h.1

-- ======================================================================
-- Loop growth and non-negativity invariants
-- ======================================================================

/-- With a positive reinvestment price and non-negative coupon values, the
loop only ever adds a non-negative integer number of units, and cash and the
terminal coupon cash stay non-negative. -/
theorem simpleLoop_growth (m : ℤ) (p : ℚ) (c : Bool) :
    ∀ (cs : List (ℤ × ℚ)) (s : SimState), 0 < p → (∀ x ∈ cs, 0 ≤ x.2) →
      0 ≤ s.qty → 0 ≤ s.cash → 0 ≤ s.final_coupon_cash →
      ∃ k : ℤ, 0 ≤ k ∧ (simpleLoop m p c cs s).qty = s.qty + (k : ℚ) ∧
        0 ≤ (simpleLoop m p c cs s).cash ∧
        0 ≤ (simpleLoop m p c cs s).final_coupon_cash := by
  intro cs
  induction cs with
  | nil =>
    intro s _ _ hq hcash hfcc
    exact ⟨0, le_refl 0, by simp [simpleLoop], by simpa [simpleLoop] using hcash,
      by simpa [simpleLoop] using hfcc⟩
  | cons hd tl ih =>
    intro s hp hcs hq hcash hfcc
    obtain ⟨pay, v⟩ := hd
    have hv : 0 ≤ v := hcs (pay, v) (List.mem_cons_self _ _)
    have htot : 0 ≤ v * s.qty + (if c then s.cash else 0) := by
      have h1 : 0 ≤ v * s.qty := mul_nonneg hv hq
      cases c <;> simp <;> positivity
    simp only [simpleLoop]
    by_cases hpm : m ≤ pay
    · rw [if_pos hpm]
      exact ⟨0, le_refl 0, by simp, by simp, by simpa using htot⟩
    · rw [if_neg hpm]
      have hn : (0 : ℤ) ≤ ⌊(v * s.qty + (if c then s.cash else 0)) / p⌋ :=
        lot_count_nonneg htot hp
      have hcash' : 0 ≤ (if c then
          round2 (v * s.qty + (if c then s.cash else 0) -
            ((⌊(v * s.qty + (if c then s.cash else 0)) / p⌋ : ℤ) : ℚ) * p)
          else (0 : ℚ)) := by
        have := round2_nonneg (lot_remainder_nonneg
          (v * s.qty + (if c then s.cash else 0)) hp)
        cases c <;> simpa using this
      have hnQ : (0 : ℚ) ≤
          ((⌊(v * s.qty + (if c then s.cash else 0)) / p⌋ : ℤ) : ℚ) := by
        exact_mod_cast hn
      obtain ⟨k, hk0, hkq, hkc, hkf⟩ := ih
        { qty := s.qty + ((⌊(v * s.qty + (if c then s.cash else 0)) / p⌋ : ℤ) : ℚ)
          cash := if c then
              round2 (v * s.qty + (if c then s.cash else 0) -
                ((⌊(v * s.qty + (if c then s.cash else 0)) / p⌋ : ℤ) : ℚ) * p)
            else 0
          final_coupon_cash := s.final_coupon_cash }
        hp (fun x hx => hcs x (List.mem_cons_of_mem _ hx))
        (by dsimp only; linarith) hcash' hfcc
      refine ⟨⌊(v * s.qty + (if c then s.cash else 0)) / p⌋ + k, by omega, ?_, hkc, hkf⟩
      rw [hkq]
      push_cast
      ring

/-- Under the same hypotheses, successive states of the loop trace carry a
non-decreasing quantity. -/
theorem simpleStates_chain (m : ℤ) (p : ℚ) (c : Bool) :
    ∀ (cs : List (ℤ × ℚ)) (s : SimState), 0 < p → (∀ x ∈ cs, 0 ≤ x.2) →
      0 ≤ s.qty → 0 ≤ s.cash →
      List.Chain' (fun a b => a.qty ≤ b.qty) (s :: simpleStates m p c cs s) := by
  intro cs
  induction cs with
  | nil => intro s _ _ _ _; simp [simpleStates]
  | cons hd tl ih =>
    intro s hp hcs hq hcash
    obtain ⟨pay, v⟩ := hd
    have hv : 0 ≤ v := hcs (pay, v) (List.mem_cons_self _ _)
    have htot : 0 ≤ v * s.qty + (if c then s.cash else 0) := by
      have h1 : 0 ≤ v * s.qty := mul_nonneg hv hq
      cases c <;> simp <;> positivity
    simp only [simpleStates]
    by_cases hpm : m ≤ pay
    · rw [if_pos hpm]
      simp [List.chain'_cons]
    · rw [if_neg hpm]
      have hn : (0 : ℤ) ≤ ⌊(v * s.qty + (if c then s.cash else 0)) / p⌋ :=
        lot_count_nonneg htot hp
      have hcash' : 0 ≤ (if c then
          round2 (v * s.qty + (if c then s.cash else 0) -
            ((⌊(v * s.qty + (if c then s.cash else 0)) / p⌋ : ℤ) : ℚ) * p)
          else (0 : ℚ)) := by
        have := round2_nonneg (lot_remainder_nonneg
          (v * s.qty + (if c then s.cash else 0)) hp)
        cases c <;> simpa using this
      rw [List.chain'_cons]
      constructor
      · have : (0 : ℚ) ≤ ((⌊(v * s.qty + (if c then s.cash else 0)) / p⌋ : ℤ) : ℚ) := by
          exact_mod_cast hn
        simp only []
        linarith
      · have hnQ : (0 : ℚ) ≤
            ((⌊(v * s.qty + (if c then s.cash else 0)) / p⌋ : ℤ) : ℚ) := by
          exact_mod_cast hn
        exact ih
          { qty := s.qty + ((⌊(v * s.qty + (if c then s.cash else 0)) / p⌋ : ℤ) : ℚ)
            cash := if c then
                round2 (v * s.qty + (if c then s.cash else 0) -
                  ((⌊(v * s.qty + (if c then s.cash else 0)) / p⌋ : ℤ) : ℚ) * p)
              else 0
            final_coupon_cash := s.final_coupon_cash }
          hp (fun x hx => hcs x (List.mem_cons_of_mem _ hx))
          (by dsimp only; linarith) hcash'

-- ======================================================================
-- C10: quantity is non-decreasing; final quantity bounds
-- ======================================================================

/-- C10: with positive coupon values, a positive reinvestment price and a
non-negative initial quantity, the held quantity never decreases from one
coupon step to the next, and both variants return a final quantity at least
`initial_qty`. -/
theorem quantity_monotone (bond : Bond) (purchase_date initial_qty : ℤ)
    (reinvest_price : ℚ) (allow_carry_over : Bool)
    (hp : 0 < reinvest_price) (hc : ∀ x ∈ bond.coupons, 0 < x.2)
    (hq : 0 ≤ initial_qty) :
    List.Chain' (fun a b => a.qty ≤ b.qty)
      ({ qty := (initial_qty : ℚ), cash := 0, final_coupon_cash := 0 } ::
        simpleStates bond.maturity_date reinvest_price allow_carry_over
          (bond.coupons.filter (fun c => purchase_date ≤ c.1))
          { qty := (initial_qty : ℚ), cash := 0, final_coupon_cash := 0 }) ∧
    initial_qty ≤ (simulate_reinvest_simple bond purchase_date initial_qty
        reinvest_price allow_carry_over).final_qty ∧
    initial_qty ≤ (simulate_reinvest_detailed bond purchase_date initial_qty
        reinvest_price allow_carry_over).final_quantity := by
  have hfil : ∀ x ∈ bond.coupons.filter (fun c => purchase_date ≤ c.1), 0 ≤ x.2 :=
    fun x hx => (hc x (List.mem_filter.mp hx).1).le
  have hqQ : (0 : ℚ) ≤ (initial_qty : ℚ) := by exact_mod_cast hq
  obtain ⟨k, hk0, hkq, -, -⟩ := simpleLoop_growth bond.maturity_date reinvest_price
    allow_carry_over (bond.coupons.filter (fun c => purchase_date ≤ c.1))
    { qty := (initial_qty : ℚ), cash := 0, final_coupon_cash := 0 }
    hp hfil hqQ (le_refl 0) (le_refl 0)
  have hfinal : pyInt ((simpleLoop bond.maturity_date reinvest_price allow_carry_over
      (bond.coupons.filter (fun c => purchase_date ≤ c.1))
      { qty := (initial_qty : ℚ), cash := 0, final_coupon_cash := 0 }).qty) =
      initial_qty + k := by
    rw [hkq]
    have : ((initial_qty : ℚ) + (k : ℚ)) = ((initial_qty + k : ℤ) : ℚ) := by push_cast; ring
    rw [this, pyInt_intCast]
  refine ⟨simpleStates_chain bond.maturity_date reinvest_price allow_carry_over
      _ _ hp hfil hqQ (le_refl 0), ?_, ?_⟩
  · simp only [simulate_reinvest_simple]
    rw [hfinal]
    omega
  · simp only [simulate_reinvest_detailed]
    rw [detailedLoop_eq_simpleLoop, hfinal]
    omega

/-- Witness for C10 at a concrete input. -/
theorem quantity_monotone_witness :
    (10 : ℤ) ≤ (simulate_reinvest_simple (workedBond 100 200) 0 10 1000
      true).final_qty := by
  have h := quantity_monotone (workedBond 100 200) 0 10 1000 true
    (by norm_num)
    (by intro x hx
        simp [workedBond] at hx
        rcases hx with h | h <;> rw [h] <;> norm_num)
    (by norm_num)
  exact h.2.1

-- ======================================================================
-- C6: carry-over suppression
-- ======================================================================

/-- With carry-over disabled, every state the loop writes has cash 0. -/
theorem simpleStates_cash_zero (m : ℤ) (p : ℚ) :
    ∀ (cs : List (ℤ × ℚ)) (s : SimState),
      ∀ st ∈ simpleStates m p false cs s, st.cash = 0 := by
  intro cs
  induction cs with
  | nil => intro s st hst; simp [simpleStates] at hst
  | cons hd tl ih =>
    intro s st hst
    obtain ⟨pay, v⟩ := hd
    simp only [simpleStates] at hst
    by_cases hpm : m ≤ pay
    · rw [if_pos hpm] at hst
      simp at hst
      rw [hst]
    · rw [if_neg hpm] at hst
      rcases List.mem_cons.mp hst with h | h
      · rw [h]; rfl
      · exact ih _ st h

/-- With carry-over disabled, the loop's terminal coupon cash is exactly the
reference value of the spec: the terminal event's coupon value times the
quantity held at that step, with nothing carried in. -/
theorem simpleLoop_noCarry_fcc (m : ℤ) (p : ℚ) :
    ∀ (cs : List (ℤ × ℚ)) (s : SimState), s.final_coupon_cash = 0 →
      (simpleLoop m p false cs s).final_coupon_cash =
        noCarryFinalCoupon m p cs s.qty := by
  intro cs
  induction cs with
  | nil => intro s hs; simpa [simpleLoop, noCarryFinalCoupon] using hs
  | cons hd tl ih =>
    intro s hs
    obtain ⟨pay, v⟩ := hd
    simp only [simpleLoop, noCarryFinalCoupon]
    by_cases hpm : m ≤ pay
    · rw [if_pos hpm, if_pos hpm]
      simp
    · rw [if_neg hpm, if_neg hpm]
      rw [ih _ (by simpa using hs)]
      simp

/-- C6: with `allow_carry_over = false`, the cash residual is exactly 0
after every coupon step, and `final_coupon_cash` is exactly the terminal
event's `coupon_income` with no carried cash added (the reference
computation `noCarryFinalCoupon`), in both loop variants. -/
theorem carry_over_suppression (bond : Bond) (purchase_date initial_qty : ℤ)
    (reinvest_price : ℚ) :
    (∀ st ∈ simpleStates bond.maturity_date reinvest_price false
        (bond.coupons.filter (fun c => purchase_date ≤ c.1))
        { qty := (initial_qty : ℚ), cash := 0, final_coupon_cash := 0 },
      st.cash = 0) ∧
    (simpleLoop bond.maturity_date reinvest_price false
        (bond.coupons.filter (fun c => purchase_date ≤ c.1))
        { qty := (initial_qty : ℚ), cash := 0, final_coupon_cash := 0 }
      ).final_coupon_cash =
      noCarryFinalCoupon bond.maturity_date reinvest_price
        (bond.coupons.filter (fun c => purchase_date ≤ c.1)) (initial_qty : ℚ) ∧
    (detailedLoop bond.maturity_date reinvest_price false
        (bond.coupons.filter (fun c => purchase_date ≤ c.1))
        { qty := (initial_qty : ℚ), cash := 0, final_coupon_cash := 0 }
      ).final_coupon_cash =
      noCarryFinalCoupon bond.maturity_date reinvest_price
        (bond.coupons.filter (fun c => purchase_date ≤ c.1)) (initial_qty : ℚ) := by
  refine ⟨simpleStates_cash_zero _ _ _ _, ?_, ?_⟩
  · exact simpleLoop_noCarry_fcc _ _ _ _ rfl
  · rw [detailedLoop_eq_simpleLoop]
    exact simpleLoop_noCarry_fcc _ _ _ _ rfl

/-- Witness for C6 at a concrete input. -/
theorem carry_over_suppression_witness :
    (simpleLoop (workedBond 100 200).maturity_date 1000 false
        ((workedBond 100 200).coupons.filter (fun c => (0 : ℤ) ≤ c.1))
        { qty := ((10 : ℤ) : ℚ), cash := 0, final_coupon_cash := 0 }
      ).final_coupon_cash =
      noCarryFinalCoupon (workedBond 100 200).maturity_date 1000
        ((workedBond 100 200).coupons.filter (fun c => (0 : ℤ) ≤ c.1))
        ((10 : ℤ) : ℚ) :=
  (carry_over_suppression (workedBond 100 200) 0 10 1000).2.1

-- ======================================================================
-- C2: the source performs no input validation
-- ======================================================================

/-- A zero-quantity run never changes the all-zero state (every coupon pays
`value * 0 = 0`, and `floor (0 / price) = 0` for every price). -/
theorem simpleLoop_zero_state (m : ℤ) (p : ℚ) (c : Bool) :
    ∀ cs : List (ℤ × ℚ),
      simpleLoop m p c cs { qty := 0, cash := 0, final_coupon_cash := 0 } =
        { qty := 0, cash := 0, final_coupon_cash := 0 } := by
  intro cs
  induction cs with
  | nil => rfl
  | cons hd tl ih =>
    obtain ⟨pay, v⟩ := hd
    simp only [simpleLoop]
    by_cases hpm : m ≤ pay
    · rw [if_pos hpm]
      simp
    · rw [if_neg hpm]
      have htot : v * (0 : ℚ) + (if c then (0 : ℚ) else 0) = 0 := by simp
      rw [htot]
      simpa [round2_zero] using ih

/-- C2 (amended): the code validates nothing.  A negative `target_amount`
makes the solver return quantity 1 at once (for any bond with a positive
face value and non-negative coupons, since every simulated amount is then
non-negative), and `initial_qty = 0` is accepted by the simulator, which
returns an ordinary result with `final_amount = 0` — no invalid-input
failure exists in either function.  The simulator conclusions are stated
only for `reinvest_price ≠ 0`: at `reinvest_price = 0` the Python source
instead dies with an unhandled `ZeroDivisionError` at the first
non-terminal coupon step (`total_coupon // reinvest_price`), a dynamic
crash rather than the typed InvalidInput rejection the claim asserts, and
one the rational model (where division by zero is total) does not
exhibit. -/
theorem no_input_validation (bond : Bond) (purchase_date : ℤ)
    (target_amount reinvest_price : ℚ) (allow_carry_over : Bool)
    (hface : 0 < bond.face_value) (hcoup : ∀ x ∈ bond.coupons, 0 ≤ x.2)
    (ht : target_amount < 0) (_hprice : reinvest_price ≠ 0) :
    find_min_qty_for_target bond purchase_date target_amount allow_carry_over =
      .ok (1, (simulate_reinvest_simple bond purchase_date 1 bond.face_value
        allow_carry_over).final_amount) ∧
    (simulate_reinvest_detailed bond purchase_date 0 reinvest_price
        allow_carry_over).final_amount = 0 ∧
    (simulate_reinvest_detailed bond purchase_date 0 reinvest_price
        allow_carry_over).final_quantity = 0 := by
  have hzero : ((0 : ℤ) : ℚ) = (0 : ℚ) := by norm_num
  refine ⟨?_, ?_, ?_⟩
  · have hfil : ∀ x ∈ bond.coupons.filter (fun c => purchase_date ≤ c.1), 0 ≤ x.2 :=
      fun x hx => hcoup x (List.mem_filter.mp hx).1
    obtain ⟨k, hk0, hkq, hkc, hkf⟩ := simpleLoop_growth bond.maturity_date
      bond.face_value allow_carry_over
      (bond.coupons.filter (fun c => purchase_date ≤ c.1))
      { qty := ((1 : ℤ) : ℚ), cash := 0, final_coupon_cash := 0 }
      hface hfil (by norm_num) (le_refl 0) (le_refl 0)
    have hfa : 0 ≤ (simulate_reinvest_simple bond purchase_date 1 bond.face_value
        allow_carry_over).final_amount := by
      simp only [simulate_reinvest_simple]
      have hq : 0 ≤ (simpleLoop bond.maturity_date bond.face_value allow_carry_over
          (bond.coupons.filter (fun c => purchase_date ≤ c.1))
          { qty := ((1 : ℤ) : ℚ), cash := 0, final_coupon_cash := 0 }).qty := by
        rw [hkq]
        have : (0 : ℚ) ≤ (k : ℚ) := by exact_mod_cast hk0
        norm_num
        linarith
      have := mul_nonneg hq hface.le
      linarith
    simp only [find_min_qty_for_target]
    rw [if_pos (le_trans ht.le hfa)]
  · simp only [simulate_reinvest_detailed]
    rw [detailedLoop_eq_simpleLoop, hzero, simpleLoop_zero_state]
    norm_num
  · simp only [simulate_reinvest_detailed]
    rw [detailedLoop_eq_simpleLoop, hzero, simpleLoop_zero_state]
    have : pyInt 0 = 0 := by rw [← hzero, pyInt_intCast]
    simpa using this

/-- Witness for C2's amended statement at a concrete input. -/
theorem no_input_validation_witness :
    find_min_qty_for_target unitBond 0 (-7) true =
      .ok (1, (simulate_reinvest_simple unitBond 0 1 unitBond.face_value
        true).final_amount) :=
  (no_input_validation unitBond 0 (-7) 3 true (by norm_num [unitBond])
    (by intro x hx; simp [unitBond] at hx) (by norm_num) (by norm_num)).1

/-- Counterexample for C2 as stated: the simulator happily accepts
`initial_qty = 0`, `initial_qty = -3` and `reinvest_price = -5` and returns
ordinary results, and the solver accepts a negative `target_amount` and
returns `Ok` with quantity 1 — no InvalidInput failure occurs anywhere. -/
theorem no_input_validation_counterexample :
    find_min_qty_for_target unitBond 0 (-1) true = .ok (1, 1) ∧
    (simulate_reinvest_detailed unitBond 0 0 (-5) true).final_amount = 0 ∧
    (simulate_reinvest_detailed unitBond 0 (-3) 1 true).final_quantity = -3 := by
  refine ⟨?_, ?_, ?_⟩
  · simp only [find_min_qty_for_target, simulate_reinvest_simple, unitBond,
      List.filter_nil, simpleLoop]
    rw [if_pos (by norm_num)]
    norm_num
  · simp only [simulate_reinvest_detailed, unitBond, List.filter_nil, detailedLoop]
    norm_num
  · simp only [simulate_reinvest_detailed, unitBond, List.filter_nil, detailedLoop]
    exact pyInt_intCast (-3)

-- ======================================================================
-- C8: purchase at or after maturity
-- ======================================================================

/-- C8 (amended): a purchase date at or after maturity never fails and
yields a well-defined result with the unmodified `initial_qty` and no
reinvestment — but the result is redemption-only exactly when the filtered
schedule is empty; if a coupon with `pay_date >= purchase_date` remains, it
is credited as the terminal event (`coupon_value * initial_qty` is added on
top of redemption). -/
theorem purchase_at_or_after_maturity (bond : Bond) (purchase_date initial_qty : ℤ)
    (reinvest_price : ℚ) (allow_carry_over : Bool)
    (h : bond.maturity_date ≤ purchase_date) :
    (simulate_reinvest_detailed bond purchase_date initial_qty reinvest_price
        allow_carry_over).final_quantity = initial_qty ∧
    (simulate_reinvest_detailed bond purchase_date initial_qty reinvest_price
        allow_carry_over).final_amount =
      (initial_qty : ℚ) * bond.face_value +
        ((bond.coupons.filter (fun c => purchase_date ≤ c.1)).head?.elim 0
          (fun c => c.2 * (initial_qty : ℚ))) := by
  simp only [simulate_reinvest_detailed]
  rw [detailedLoop_eq_simpleLoop]
  cases hfu : bond.coupons.filter (fun c => purchase_date ≤ c.1) with
  | nil =>
    simp only [simpleLoop, List.head?_nil, Option.elim_none]
    exact ⟨pyInt_intCast initial_qty, by ring⟩
  | cons hd tl =>
    have hmem : hd ∈ bond.coupons.filter (fun c => purchase_date ≤ c.1) := by
      rw [hfu]; exact List.mem_cons_self _ _
    have hpd : purchase_date ≤ hd.1 := by
      have := (List.mem_filter.mp hmem).2
      simpa using this
    obtain ⟨pay, v⟩ := hd
    simp only [simpleLoop]
    rw [if_pos (le_trans h hpd)]
    simp only [List.head?_cons, Option.elim_some]
    constructor
    · exact pyInt_intCast initial_qty
    · simp

/-- Witness for C8's amended statement at a concrete input (purchase on the
maturity day, with the final coupon still payable that day). -/
theorem purchase_at_or_after_maturity_witness :
    (simulate_reinvest_detailed (workedBond 100 200) 200 10 1000
      true).final_quantity = 10 :=
  (purchase_at_or_after_maturity (workedBond 100 200) 200 10 1000 true
    (by norm_num [workedBond])).1

/-- Counterexample for C8 as stated: buying the worked-scenario bond on its
maturity day leaves the terminal coupon in the filtered schedule, so the
result credits `1035 * 10` on top of redemption — `final_amount` is 20350,
not the redemption-only `10 * 1000` the claim requires. -/
theorem purchase_at_maturity_counterexample :
    (simulate_reinvest_detailed (workedBond 100 200) 200 10 1000
        true).final_amount = 20350 ∧
    (simulate_reinvest_detailed (workedBond 100 200) 200 10 1000
        true).final_amount ≠ ((10 : ℤ) : ℚ) * (workedBond 100 200).face_value := by
  have hfu : (workedBond 100 200).coupons.filter (fun c => (200 : ℤ) ≤ c.1) =
      [((200 : ℤ), (1035 : ℚ))] := by
    simp [workedBond, List.filter]
  constructor
  · simp only [simulate_reinvest_detailed, hfu, detailedLoop, workedBond]
    norm_num
  · simp only [simulate_reinvest_detailed, hfu, detailedLoop, workedBond]
    norm_num

-- ======================================================================
-- C9: annualized-return formula and its guards
-- ======================================================================

/-- C9 (amended): `elapsed_years` is the day difference divided by 365.25
(= 1461/4) and the annualized return is `(profit / initial_investment) /
elapsed_years * 100` when `elapsed_years > 0` and `0` otherwise, exactly as
claimed; the horizon division is guarded by that positivity test, but the
division by `initial_investment` is NOT guarded — it is well-defined only
under the extra preconditions `initial_qty ≠ 0` and
`purchase_price_with_nkd ≠ 0` established here. -/
theorem annualized_return_formula (bond : Bond) (purchase_date initial_qty : ℤ)
    (reinvest_price : ℚ) (allow_carry_over : Bool)
    (hq : initial_qty ≠ 0) (hpr : bond.purchase_price_with_nkd ≠ 0) :
    (simulate_reinvest_detailed bond purchase_date initial_qty reinvest_price
        allow_carry_over).initial_investment ≠ 0 ∧
    (simulate_reinvest_detailed bond purchase_date initial_qty reinvest_price
        allow_carry_over).annualized_return =
      (if 0 < ((bond.maturity_date - purchase_date : ℤ) : ℚ) / (1461 / 4) then
        (simulate_reinvest_detailed bond purchase_date initial_qty reinvest_price
            allow_carry_over).profit /
          (simulate_reinvest_detailed bond purchase_date initial_qty reinvest_price
            allow_carry_over).initial_investment /
          (((bond.maturity_date - purchase_date : ℤ) : ℚ) / (1461 / 4)) * 100
      else 0) := by
  constructor
  · simp only [simulate_reinvest_detailed]
    exact mul_ne_zero (Int.cast_ne_zero.mpr hq) hpr
  · rfl

/-- Witness for C9's amended statement at a concrete input. -/
theorem annualized_return_formula_witness :
    (simulate_reinvest_detailed (workedBond 100 200) 0 10 1000
      true).initial_investment ≠ 0 :=
  (annualized_return_formula (workedBond 100 200) 0 10 1000 true
    (by norm_num) (by norm_num [workedBond])).1

/-- Counterexample for C9 as stated: with the data-model-allowed
`purchase_price_with_nkd = 0`, the horizon guard passes (the bond matures
365 days after purchase) while `initial_investment = 0`, so the source
executes `profit / 0` — in Python a `ZeroDivisionError`, not a guarded
division. -/
theorem annualized_unguarded_counterexample :
    (simulate_reinvest_detailed priceZeroBond 0 1 1000
        true).initial_investment = 0 ∧
    (0 : ℚ) < ((priceZeroBond.maturity_date - 0 : ℤ) : ℚ) / (1461 / 4) := by
  constructor
  · simp only [simulate_reinvest_detailed, priceZeroBond]
    norm_num
  · norm_num [priceZeroBond]

-- ======================================================================
-- C4: the worked scenario
-- ======================================================================

/-- C4: the spec's worked scenario.  For the bond with face value 1000,
price-with-accrued 980 and coupons `(d1, 35)`, `(d2, 1035)` with
`purchase_date <= d1 < d2 = maturity`, simulating 10 units with carry-over:
after the first coupon, cash is 350 and the quantity stays 10; the second
coupon is terminal with `final_coupon_cash = 10700`; and the detailed result
has `final_amount = 20700`, `initial_investment = 9800`, `profit = 10900`
(and the simple variant agrees on `final_amount`). -/
theorem worked_scenario (d1 d2 purchase_date : ℤ)
    (h1 : purchase_date ≤ d1) (h2 : d1 < d2) :
    simpleStates (workedBond d1 d2).maturity_date 1000 true
        ((workedBond d1 d2).coupons.filter (fun c => purchase_date ≤ c.1))
        { qty := ((10 : ℤ) : ℚ), cash := 0, final_coupon_cash := 0 } =
      [{ qty := 10, cash := 350, final_coupon_cash := 0 },
       { qty := 10, cash := 0, final_coupon_cash := 10700 }] ∧
    (simulate_reinvest_detailed (workedBond d1 d2) purchase_date 10 1000
        true).final_amount = 20700 ∧
    (simulate_reinvest_detailed (workedBond d1 d2) purchase_date 10 1000
        true).initial_investment = 9800 ∧
    (simulate_reinvest_detailed (workedBond d1 d2) purchase_date 10 1000
        true).profit = 10900 ∧
    (simulate_reinvest_simple (workedBond d1 d2) purchase_date 10 1000
        true).final_amount = 20700 := by
  have h12 : purchase_date ≤ d2 := le_trans h1 h2.le
  have hnot : ¬(d2 ≤ d1) := not_le.mpr h2
  have hfu : (workedBond d1 d2).coupons.filter (fun c => purchase_date ≤ c.1) =
      [(d1, 35), (d2, 1035)] := by
    simp [workedBond, List.filter, h1, h12]
  have hstep : (35 : ℚ) * ((10 : ℤ) : ℚ) + (if true then (0 : ℚ) else 0) = 350 := by
    norm_num
  have hran : ((⌊(350 : ℚ) / 1000⌋ : ℤ) : ℚ) = 0 := by norm_num
  have hcash : round2 ((350 : ℚ) - ((⌊(350 : ℚ) / 1000⌋ : ℤ) : ℚ) * 1000) = 350 := by
    rw [hran]
    norm_num [round2, round_eq]
  refine ⟨?_, ?_, ?_, ?_, ?_⟩
  · rw [hfu]
    simp only [workedBond, simpleStates, hnot, if_false, le_refl, if_true,
      hstep, hcash, hran]
    norm_num [SimState.mk.injEq, round2, round_eq]
  · simp only [simulate_reinvest_detailed]
    rw [hfu]
    simp only [workedBond, detailedLoop, hnot, if_false, le_refl, if_true]
    norm_num [round2, round_eq]
  · simp only [simulate_reinvest_detailed, workedBond]
    norm_num
  · simp only [simulate_reinvest_detailed]
    rw [hfu]
    simp only [workedBond, detailedLoop, hnot, if_false, le_refl, if_true]
    norm_num [round2, round_eq]
  · simp only [simulate_reinvest_simple]
    rw [hfu]
    simp only [workedBond, simpleLoop, hnot, if_false, le_refl, if_true]
    norm_num [round2, round_eq]

/-- Witness for C4 at concrete dates. -/
theorem worked_scenario_witness :
    (simulate_reinvest_detailed (workedBond 100 200) 0 10 1000
        true).final_amount = 20700 :=
  (worked_scenario 100 200 0 (by norm_num) (by norm_num)).2.1

-- ======================================================================
-- Solver machinery: invariants of the bracketing and binary-search loops
-- ======================================================================

/-- The Python midpoint `(left + right) // 2` lies between the endpoints. -/
theorem fdiv_two_bounds {l r : ℤ} (h : l ≤ r) :
    l ≤ Int.fdiv (l + r) 2 ∧ Int.fdiv (l + r) 2 ≤ r := by
  rw [Int.fdiv_eq_ediv _ (by norm_num)]
  omega

/-- On the coupon-free unit bond the oracle's amount at quantity `q` is `q`. -/
theorem unitBond_final_amount (q : ℤ) (c : Bool) :
    (simulate_reinvest_simple unitBond 0 q unitBond.face_value c).final_amount =
      (q : ℚ) := by
  simp [simulate_reinvest_simple, simpleLoop, unitBond]

/-- A power of two that stays at or below the solver's hard ceiling has
exponent at most 23 (`2 ^ 24 = 16777216 > 10 ^ 7`). -/
theorem pow_le_ceiling_exp {k : ℕ} (hk : (2 : ℤ) ^ k ≤ 10000000) : k ≤ 23 := by
  by_contra hc
  have h24 : (16777216 : ℤ) ≤ 10000000 :=
    calc (16777216 : ℤ) = 2 ^ 24 := by norm_num
      _ ≤ 2 ^ k := pow_le_pow_right₀ (by norm_num) (by omega)
      _ ≤ 10000000 := hk
  norm_num at h24

/-- Invariant proof for the binary search, by induction on the remaining
interval width.  Preconditions: the best candidate meets the target and
carries its own simulated amount; the quantity just below `left` fails the
target; the best candidate sits at `right + 1` or at `right`; and the
interval is nonempty or just emptied.  Conclusion: the returned quantity
meets the target, the returned amount is its simulated amount, and the
quantity one below it fails the target. -/
theorem binsearch_go (bond : Bond) (pd : ℤ) (t : ℚ) (c : Bool) :
    ∀ n : ℕ, ∀ bq : ℤ, ∀ bv : ℚ, ∀ l r : ℤ,
      (r + 1 - l).toNat ≤ n →
      meetsTarget bond pd t c bq →
      bv = probeValue bond pd c bq →
      ¬ meetsTarget bond pd t c (l - 1) →
      (bq = r + 1 ∨ bq = r) →
      l ≤ r + 1 →
      meetsTarget bond pd t c (binsearch bond pd t c bq bv l r).1 ∧
      (binsearch bond pd t c bq bv l r).2 =
        probeValue bond pd c (binsearch bond pd t c bq bv l r).1 ∧
      ¬ meetsTarget bond pd t c ((binsearch bond pd t c bq bv l r).1 - 1) := by
  intro n
  induction n with
  | zero =>
    intro bq bv l r hn hbq hbv hl hC hD
    have hlr : ¬ l ≤ r := by omega
    rw [binsearch, dif_neg hlr]
    rcases hC with h | h
    · refine ⟨hbq, hbv, ?_⟩
      have hb1 : bq - 1 = l - 1 := by omega
      show ¬ meetsTarget bond pd t c (bq - 1)
      rw [hb1]
      exact hl
    · exfalso
      have hb1 : bq = l - 1 := by omega
      rw [hb1] at hbq
      exact hl hbq
  | succ n ih =>
    intro bq bv l r hn hbq hbv hl hC hD
    by_cases hlr : l ≤ r
    · rw [binsearch, dif_pos hlr]
      obtain ⟨hml, hmr⟩ := fdiv_two_bounds hlr
      by_cases hP : t ≤ (simulate_reinvest_simple bond pd (Int.fdiv (l + r) 2)
          bond.face_value c).final_amount
      · by_cases hupd : (simulate_reinvest_simple bond pd (Int.fdiv (l + r) 2)
            bond.face_value c).final_amount < bv ∨ Int.fdiv (l + r) 2 < bq
        · simp only [hP, if_true, hupd]
          exact ih _ _ _ _ (by omega) hP rfl hl (Or.inl (by omega)) (by omega)
        · simp only [hP, if_true, hupd, if_false]
          push_neg at hupd
          have hbqr : bq = r := by
            rcases hC with h | h
            · exfalso; omega
            · exact h
          have hmid : Int.fdiv (l + r) 2 = bq := by omega
          refine ih _ _ _ _ (by omega) hbq hbv hl (Or.inl (by omega)) (by omega)
      · simp only [hP, if_false]
        refine ih _ _ _ _ (by omega) hbq hbv ?_ hC (by omega)
        have : Int.fdiv (l + r) 2 + 1 - 1 = Int.fdiv (l + r) 2 := by omega
        rw [this]
        exact hP
    · rw [binsearch, dif_neg hlr]
      rcases hC with h | h
      · refine ⟨hbq, hbv, ?_⟩
        have hb1 : bq - 1 = l - 1 := by omega
        show ¬ meetsTarget bond pd t c (bq - 1)
        rw [hb1]
        exact hl
      · exfalso
        have hb1 : bq = l - 1 := by omega
        rw [hb1] at hbq
        exact hl hbq

/-- Invariant proof for the exponential bracketing: whenever it returns
`Ok (lower_qty, lower_val, upper_qty, upper_val)`, the lower quantity fails
the target, the upper quantity meets it, `upper_val` is the upper quantity's
simulated amount, and the bracket is ordered. -/
theorem bracket_go (bond : Bond) (pd : ℤ) (t : ℚ) (c : Bool) :
    ∀ n : ℕ, ∀ lq : ℤ, ∀ lv : ℚ, ∀ uq : ℤ, ∀ hu : 0 < uq,
      ∀ lq' uq' : ℤ, ∀ lv' uv' : ℚ,
      (10000001 - uq).toNat ≤ n →
      ¬ meetsTarget bond pd t c lq →
      lq ≤ uq →
      exponentialBracket bond pd t c lq lv uq hu = .ok (lq', lv', uq', uv') →
      ¬ meetsTarget bond pd t c lq' ∧ meetsTarget bond pd t c uq' ∧
        uv' = probeValue bond pd c uq' ∧ lq' ≤ uq' := by
  intro n
  induction n with
  | zero =>
    intro lq lv uq hu lq' uq' lv' uv' hn hlq hlu heq
    rw [exponentialBracket] at heq
    by_cases hP : t ≤ (simulate_reinvest_simple bond pd uq bond.face_value
        c).final_amount
    · simp only [hP, if_true, Except.ok.injEq, Prod.mk.injEq] at heq
      obtain ⟨h1, h2, h3, h4⟩ := heq
      subst h1; subst h2; subst h3; subst h4
      exact ⟨hlq, hP, rfl, hlu⟩
    · have h2 : (10000000 : ℤ) < uq * 2 := by omega
      simp only [hP, if_false] at heq
      rw [dif_pos h2] at heq
      simp at heq
  | succ n ih =>
    intro lq lv uq hu lq' uq' lv' uv' hn hlq hlu heq
    rw [exponentialBracket] at heq
    by_cases hP : t ≤ (simulate_reinvest_simple bond pd uq bond.face_value
        c).final_amount
    · simp only [hP, if_true, Except.ok.injEq, Prod.mk.injEq] at heq
      obtain ⟨h1, h2, h3, h4⟩ := heq
      subst h1; subst h2; subst h3; subst h4
      exact ⟨hlq, hP, rfl, hlu⟩
    · simp only [hP, if_false] at heq
      by_cases h2 : (10000000 : ℤ) < uq * 2
      · rw [dif_pos h2] at heq
        simp at heq
      · rw [dif_neg h2] at heq
        exact ih uq _ (uq * 2) (by omega) lq' uq' lv' uv' (by omega) hP
          (by omega) heq

/-- When every probed power of two fails the target, the bracketing loop
runs into the hard ceiling and returns the bound-exceeded error. -/
theorem bracket_fail_go (bond : Bond) (pd : ℤ) (t : ℚ) (c : Bool)
    (H : ∀ k : ℕ, (2 : ℤ) ^ k ≤ 10000000 →
      ¬ meetsTarget bond pd t c ((2 : ℤ) ^ k)) :
    ∀ n j : ℕ, ∀ lq : ℤ, ∀ lv : ℚ, ∀ uq : ℤ, ∀ hu : 0 < uq,
      uq = 2 ^ j → 1 ≤ j → j ≤ 23 → 24 - j ≤ n →
      exponentialBracket bond pd t c lq lv uq hu = .error searchBoundMessage := by
  intro n
  induction n with
  | zero =>
    intro j lq lv uq hu huq hj1 hj23 hn
    omega
  | succ n ih =>
    intro j lq lv uq hu huq hj1 hj23 hn
    have hle : uq ≤ 10000000 := by
      rw [huq]
      calc (2 : ℤ) ^ j ≤ 2 ^ 23 := pow_le_pow_right₀ (by norm_num) hj23
        _ ≤ 10000000 := by norm_num
    have hP : ¬ t ≤ (simulate_reinvest_simple bond pd uq bond.face_value
        c).final_amount := by
      rw [huq]
      exact H j (by rw [← huq]; exact hle)
    rw [exponentialBracket]
    simp only [hP, if_false]
    by_cases h2 : (10000000 : ℤ) < uq * 2
    · rw [dif_pos h2]
    · rw [dif_neg h2]
      have hj23' : j + 1 ≤ 23 := by
        by_contra hc
        have hj : j = 23 := by omega
        rw [huq, hj] at h2
        norm_num at h2
      exact ih (j + 1) uq _ (uq * 2) (by omega)
        (by rw [huq]; ring) (by omega) hj23' (by omega)

/-- If no probed quantity `2 ^ k` at or below the ceiling meets the target,
the solver returns the bound-exceeded error. -/
theorem find_min_error_of_probes (bond : Bond) (pd : ℤ) (t : ℚ) (c : Bool)
    (H : ∀ k : ℕ, (2 : ℤ) ^ k ≤ 10000000 →
      ¬ meetsTarget bond pd t c ((2 : ℤ) ^ k)) :
    find_min_qty_for_target bond pd t c = .error searchBoundMessage := by
  have h1 : ¬ t ≤ (simulate_reinvest_simple bond pd 1 bond.face_value
      c).final_amount := by
    have := H 0 (by norm_num)
    simpa [meetsTarget] using this
  have hbr : exponentialBracket bond pd t c 1
      ((simulate_reinvest_simple bond pd 1 bond.face_value c).final_amount) 2
      zeroLtTwo = .error searchBoundMessage :=
    bracket_fail_go bond pd t c H 23 1 1 _ 2 zeroLtTwo (by norm_num)
      (le_refl 1) (by norm_num) (by norm_num)
  rw [find_min_qty_for_target]
  simp only [h1, if_false, hbr]

-- ======================================================================
-- C1: solver guarantee (amended: conditional on the solver succeeding)
-- ======================================================================

/-- C1 (amended): whenever `find_min_qty_for_target` returns `Ok (q, v)`,
the returned quantity meets the target, `v` is its simulated amount, and
either `q = 1` or quantity `q - 1` fails the target — with no monotonicity
assumption at all.  (Success itself is not guaranteed for every target
reachable below 10,000,000 units: the bracketing only probes powers of two,
see the counterexample.) -/
theorem find_min_qty_minimal (bond : Bond) (purchase_date : ℤ)
    (target_amount : ℚ) (allow_carry_over : Bool) (q : ℤ) (v : ℚ)
    (heq : find_min_qty_for_target bond purchase_date target_amount
      allow_carry_over = .ok (q, v)) :
    meetsTarget bond purchase_date target_amount allow_carry_over q ∧
    v = probeValue bond purchase_date allow_carry_over q ∧
    (q = 1 ∨ ¬ meetsTarget bond purchase_date target_amount allow_carry_over
      (q - 1)) := by
  rw [find_min_qty_for_target] at heq
  by_cases h1 : target_amount ≤ (simulate_reinvest_simple bond purchase_date 1
      bond.face_value allow_carry_over).final_amount
  · simp only [h1, if_true, Except.ok.injEq, Prod.mk.injEq] at heq
    obtain ⟨hq, hv⟩ := heq
    subst hq; subst hv
    exact ⟨h1, rfl, Or.inl rfl⟩
  · simp only [h1, if_false] at heq
    rcases hbr : exponentialBracket bond purchase_date target_amount
        allow_carry_over 1 ((simulate_reinvest_simple bond purchase_date 1
          bond.face_value allow_carry_over).final_amount) 2 zeroLtTwo with
      e | tup
    · rw [hbr] at heq
      simp at heq
    · obtain ⟨lq, lv, uq, uv⟩ := tup
      rw [hbr] at heq
      simp only [Except.ok.injEq] at heq
      obtain ⟨hlq, huq, huv, hlu⟩ := bracket_go bond purchase_date target_amount
        allow_carry_over ((10000001 : ℤ) - 2).toNat 1 _ 2 zeroLtTwo lq uq lv uv
        (by omega) h1 (by norm_num) hbr
      have hbs := binsearch_go bond purchase_date target_amount allow_carry_over
        (uq + 1 - (lq + 1)).toNat uq uv (lq + 1) uq (le_refl _) huq huv
        (by simpa using hlq) (Or.inr rfl) (by omega)
      rw [heq] at hbs
      exact ⟨hbs.1, hbs.2.1, Or.inr hbs.2.2⟩

/-- Witness for C1's amended statement: on the coupon-free unit bond with
target 3 the solver returns quantity 3, which meets the target while
quantity 2 does not. -/
theorem find_min_qty_minimal_witness :
    meetsTarget unitBond 0 3 true 3 ∧ ¬ meetsTarget unitBond 0 3 true 2 := by
  have hb2 : exponentialBracket unitBond 0 3 true 1 1 2 zeroLtTwo =
      .ok (2, 2, 4, 4) := by
    rw [exponentialBracket]
    norm_num [unitBond_final_amount]
    rw [exponentialBracket]
    norm_num [unitBond_final_amount]
  have hbs : binsearch unitBond 0 3 true 4 4 3 4 = (3, 3) := by
    rw [binsearch]
    norm_num [unitBond_final_amount, Int.fdiv_eq_ediv]
    rw [binsearch]
    norm_num
  have heval : find_min_qty_for_target unitBond 0 3 true = .ok (3, 3) := by
    rw [find_min_qty_for_target]
    rw [show ((simulate_reinvest_simple unitBond 0 1 unitBond.face_value
      true).final_amount) = 1 by rw [unitBond_final_amount]; norm_num]
    rw [if_neg (by norm_num : ¬ (3 : ℚ) ≤ 1)]
    rw [hb2]
    show Except.ok (binsearch unitBond 0 3 true 4 4 (2 + 1) 4) = Except.ok (3, 3)
    rw [(by norm_num : (2 : ℤ) + 1 = 3), hbs]
  have h := find_min_qty_minimal unitBond 0 3 true 3 3 heval
  exact ⟨h.1, (h.2.2).resolve_left (by norm_num)⟩

/-- Counterexample for C1 as stated: on the coupon-free unit bond the
target 10,000,000 is reachable with exactly 10,000,000 units (one below the
ceiling), yet the solver fails with the bound error, because its bracketing
only probes powers of two and the largest probe below the ceiling is
`2 ^ 23 = 8388608 < 10 ^ 7`. -/
theorem find_min_reachable_target_fails :
    meetsTarget unitBond 0 10000000 true 10000000 ∧
    find_min_qty_for_target unitBond 0 10000000 true =
      .error searchBoundMessage := by
  constructor
  · show (10000000 : ℚ) ≤ _
    rw [unitBond_final_amount]
    norm_num
  · apply find_min_error_of_probes
    intro k hk
    have hk23 : k ≤ 23 := pow_le_ceiling_exp hk
    show ¬ (10000000 : ℚ) ≤ _
    rw [unitBond_final_amount]
    push_cast
    have : (2 : ℚ) ^ k ≤ 2 ^ 23 := pow_le_pow_right₀ (by norm_num) hk23
    have h23 : (2 : ℚ) ^ 23 = 8388608 := by norm_num
    linarith

-- ======================================================================
-- C5: bound-exceeded failure
-- ======================================================================

/-- C5: if no probe quantity of the form `2 ^ k` with `2 ^ k <= 10,000,000`
reaches the target, the solver fails with the bound-exceeded error (rather
than looping or returning a result). -/
theorem solver_bound_exceeded (bond : Bond) (purchase_date : ℤ)
    (target_amount : ℚ) (allow_carry_over : Bool)
    (H : ∀ k : ℕ, (2 : ℤ) ^ k ≤ 10000000 →
      (simulate_reinvest_simple bond purchase_date ((2 : ℤ) ^ k)
        bond.face_value allow_carry_over).final_amount < target_amount) :
    find_min_qty_for_target bond purchase_date target_amount allow_carry_over =
      .error searchBoundMessage := by
  apply find_min_error_of_probes
  intro k hk
  exact not_le.mpr (H k hk)

/-- Witness for C5: a target of `10 ^ 15` on the coupon-free unit bond is
unreachable by every probe, and the solver errors out. -/
theorem solver_bound_exceeded_witness :
    find_min_qty_for_target unitBond 0 ((10 : ℚ) ^ 15) true =
      .error searchBoundMessage := by
  apply solver_bound_exceeded
  intro k hk
  have hk23 : k ≤ 23 := pow_le_ceiling_exp hk
  rw [unitBond_final_amount]
  push_cast
  have : (2 : ℚ) ^ k ≤ 2 ^ 23 := pow_le_pow_right₀ (by norm_num) hk23
  have h23 : (2 : ℚ) ^ 23 = 8388608 := by norm_num
  have h15 : (8388608 : ℚ) < 10 ^ 15 := by norm_num
  linarith
